import Mathlib

/-!
Verification development for the Notion Connery plugin.

The definitions below are a shallow embedding of the plugin's core
(`getNotionPageContent` action): the recursive block fetcher
`retrieveBlockChildren`, the per-block renderer `getTextFromBlock` with
its helpers `getPlainTextFromRichText` / `getMediaSourceText`, the
document-assembly part of `handler`, and `extractPageIdFromUrl`.
JavaScript dynamic-field semantics are made explicit: absent object
fields are `Option.none`, reading a field of an absent (undefined)
payload raises a `TypeError` (modelled with `Except.error`), string
concatenation with an undefined value produces the text "undefined",
and truthiness of a string field means "present and non-empty".
-/

namespace NotionSpec

/-- One fragment of a Notion rich-text array; only `plain_text` is read
by the renderer. -/
structure RichTextItem where
  plain_text : String
deriving DecidableEq, Repr

/-- A hosted or external file reference; in the Notion API these objects
always carry a `url` string. -/
structure FileRef where
  url : String
deriving DecidableEq, Repr

/-- The `synced_from` object of a synced block: its `type` field names
the sibling field holding the reference; `ref` models the value of the
field named by `type` (`none` when that field is absent, which
JavaScript renders as "undefined" in string concatenation). -/
structure SyncedFrom where
  type : String
  ref : Option String
deriving DecidableEq, Repr

/-- The type-specific payload object of a block (`block[block.type]`),
with every field the renderer may read. `none` models an absent field. -/
structure Payload where
  rich_text : Option (List RichTextItem)
  url : Option String
  title : Option String
  expression : Option String
  external : Option FileRef
  file : Option FileRef
  caption : Option (List RichTextItem)
  synced_from : Option SyncedFrom
  table_width : Option Nat
  color : Option String
deriving DecidableEq, Repr

/-- A raw block record as fetched from the Notion API: `payload` models
`block[block.type]`, with `none` for a malformed block whose payload
field is absent. -/
structure Block where
  id : String
  type : String
  has_children : Bool
  payload : Option Payload
deriving DecidableEq, Repr

/-- A payload with every field absent. -/
def emptyPayload : Payload := ⟨none, none, none, none, none, none, none, none, none, none⟩

/-- A payload holding only a rich-text array. -/
def richTextPayload (rt : List RichTextItem) : Payload :=
  ⟨some rt, none, none, none, none, none, none, none, none, none⟩

/-- A payload for a media block: external file, hosted file, generic url
and caption fields. -/
def mediaPayload (ext fil : Option FileRef) (u : Option String)
    (cap : Option (List RichTextItem)) : Payload :=
  ⟨none, u, none, none, ext, fil, cap, none, none, none⟩

/-- JavaScript string concatenation with a possibly-undefined string
value: an absent value prints as "undefined". -/
def jsStr : Option String → String
  | none => "undefined"
  | some s => s

/-- JavaScript string concatenation with a possibly-undefined number. -/
def jsNatStr : Option Nat → String
  | none => "undefined"
  | some n => toString n

/-- Message of the TypeError raised by JavaScript when a property is
read from an undefined payload. -/
def typeErrorReading (f : String) : String :=
  "TypeError: cannot read properties of undefined, reading " ++ f

/-- Source: `getPlainTextFromRichText` — concatenates the `plain_text`
of every fragment, in order (`richText.map(t => t.plain_text).join('')`). -/
def getPlainTextFromRichText (richText : List RichTextItem) : String :=
  String.join (richText.map (fun t => t.plain_text))

/-- The media type tags sharing the `getMediaSourceText` rule. -/
def mediaTags : List String := ["embed", "video", "file", "image", "pdf"]

/-- The type tags rendered as the constant "No text available". -/
def constTags : List String := ["breadcrumb", "column_list", "divider"]

/-- Source: `getMediaSourceText` — prefers `external.url`, then
`file.url`, then a truthy (non-empty) `url`, else a missing-case
diagnostic; a non-empty caption is prefixed as "caption: source".
Reading `.external` or `.caption.length` of an absent payload raises a
TypeError, as in JavaScript. -/
def getMediaSourceText (b : Block) : Except String String :=
  match b.payload with
  | none => Except.error (typeErrorReading "external")
  | some p =>
    let source : String :=
      match p.external with
      | some f => f.url
      | none =>
        match p.file with
        | some f => f.url
        | none =>
          match p.url with
          | some u =>
            if u ≠ "" then u
            else "[Missing case for media block types]: " ++ b.type
          | none => "[Missing case for media block types]: " ++ b.type
    match p.caption with
    | none => Except.error (typeErrorReading "length")
    | some cap =>
      if cap.length ≠ 0 then Except.ok (getPlainTextFromRichText cap ++ ": " ++ source)
      else Except.ok source

/-- The switch of `getTextFromBlock`, in source order.  Cases that read
a field of the payload raise a TypeError when the payload is absent. -/
def dispatch (b : Block) : Except String String :=
  if b.type = "unsupported" then Except.ok "[Unsupported block type]"
  else if b.type = "bookmark" then
    match b.payload with
    | none => Except.error (typeErrorReading "url")
    | some p => Except.ok (jsStr p.url)
  else if b.type = "child_database" then
    match b.payload with
    | none => Except.error (typeErrorReading "title")
    | some p => Except.ok (jsStr p.title)
  else if b.type = "child_page" then
    match b.payload with
    | none => Except.error (typeErrorReading "title")
    | some p => Except.ok (jsStr p.title)
  else if b.type ∈ mediaTags then getMediaSourceText b
  else if b.type = "equation" then
    match b.payload with
    | none => Except.error (typeErrorReading "expression")
    | some p => Except.ok (jsStr p.expression)
  else if b.type = "link_preview" then
    match b.payload with
    | none => Except.error (typeErrorReading "url")
    | some p => Except.ok (jsStr p.url)
  else if b.type = "synced_block" then
    match b.payload with
    | none => Except.error (typeErrorReading "synced_from")
    | some p =>
      match p.synced_from with
      | some sf =>
        Except.ok ("This block is synced with a block with the following ID: " ++ jsStr sf.ref)
      | none => Except.ok "Source sync block that another block is synced with."
  else if b.type = "table" then
    match b.payload with
    | none => Except.error (typeErrorReading "table_width")
    | some p => Except.ok ("Table width: " ++ jsNatStr p.table_width)
  else if b.type = "table_of_contents" then
    match b.payload with
    | none => Except.error (typeErrorReading "color")
    | some p => Except.ok ("ToC color: " ++ jsStr p.color)
  else if b.type ∈ constTags then Except.ok "No text available"
  else Except.ok "[Needs case added]"

/-- The optional-chaining access `block[block.type]?.rich_text`. -/
def richTextOf (b : Block) : Option (List RichTextItem) :=
  match b.payload with
  | none => none
  | some p => p.rich_text

/-- The pre-suffix `text` value of `getTextFromBlock`: the rich-text
branch when `block[block.type]?.rich_text` is truthy, else the switch. -/
def bodyResult (b : Block) : Except String String :=
  match richTextOf b with
  | some rt => Except.ok (getPlainTextFromRichText rt)
  | none => dispatch b

/-- Source: `getTextFromBlock` — body, then the has-children marker,
then the `"<type>: "` line prefix. -/
def getTextFromBlock (b : Block) : Except String String :=
  (bodyResult b).map
    (fun t => b.type ++ ": " ++ (if b.has_children then t ++ " (Has children)" else t))

/-- Appends the has-children marker when the flag is set (used to state
the rendering theorems). -/
def withChildrenSuffix (t : String) (hc : Bool) : String :=
  if hc then t ++ " (Has children)" else t

/-- Source: `blocks.map(getTextFromBlock)` — a thrown per-block
TypeError propagates, aborting the whole map; otherwise the rendered
lines are returned in input order. -/
def renderAll : List Block → Except String (List String)
  | [] => Except.ok []
  | b :: bs =>
    match getTextFromBlock b with
    | Except.error e => Except.error e
    | Except.ok line =>
      match renderAll bs with
      | Except.error e => Except.error e
      | Except.ok lines => Except.ok (line :: lines)

/-- Source: `Array.prototype.join('\n')`. -/
def joinLines : List String → String
  | [] => ""
  | [s] => s
  | s :: ss => s ++ "\n" ++ joinLines ss

/-- The error message thrown by the minimum-length gate of `handler`. -/
def insufficientMsg (n : Nat) : String :=
  "The extracted content is too short: " ++ toString n ++
    " characters. It must be at least 5 characters long."

/-- Source: the document-assembly part of `handler` — render every
block, join with newlines, and reject a document shorter than 5
characters. -/
def assemble (blocks : List Block) : Except String String :=
  match renderAll blocks with
  | Except.error e => Except.error e
  | Except.ok lines =>
    let pageContent := joinLines lines
    if pageContent.length < 5 then Except.error (insufficientMsg pageContent.length)
    else Except.ok pageContent

/-!
The block fetcher.  The upstream store is an acyclic hierarchy; a
listing call for a block id returns the direct-children records of that
id, in order (pagination concatenates pages in order and is invisible
in the resulting sequence).  We represent the subtree below the queried
root as a forest of `BlockTree`s: querying a node's id yields exactly
its child records.
-/

/-- A node of the upstream block hierarchy: the block record the store
returns for it, together with the subtrees of its children. -/
inductive BlockTree where
  | node : Block → List BlockTree → BlockTree

/-- The block record of a tree's root node. -/
def BlockTree.blk : BlockTree → Block
  | .node b _ => b

/-- The child subtrees of a tree's root node. -/
def BlockTree.children : BlockTree → List BlockTree
  | .node _ cs => cs

/-- Source: `retrieveBlockChildren` (deep variant) — lists the children
of the queried id, appending each record and, when its `has_children`
flag is set, splicing its recursively fetched descendants immediately
after it, before its following siblings.  The argument is the forest of
child subtrees of the queried id. -/
def retrieveBlockChildren : List BlockTree → List Block
  | [] => []
  | BlockTree.node blk cs :: ts =>
    blk :: ((if blk.has_children then retrieveBlockChildren cs else []) ++
      retrieveBlockChildren ts)

/-- Source: the shallow `retrieveBlockChildren` variant of
`src/index.ts` — lists only the direct children of the queried id, with
no recursion. -/
def retrieveBlockChildrenShallow (forest : List BlockTree) : List Block :=
  forest.map BlockTree.blk

/-!
The page-id extractor.  The source matches the URL against the regex
`([a-f0-9]{32})|([a-f0-9]{8}-[a-f0-9]{4}-[a-f0-9]{4}-[a-f0-9]{4}-[a-f0-9]{12})`
(no global flag): the first matching position wins, with the left
alternative preferred at a given position, and the match has its dashes
removed.  We embed the regex engine's behaviour directly: a segment
matcher for runs of lowercase-hex characters separated by dashes, an
alternation, and a left-to-right scan.
-/

/-- The character class `[a-f0-9]` of the page-id regex. -/
def isHexLower (c : Char) : Bool :=
  ('a' ≤ c && c ≤ 'f') || ('0' ≤ c && c ≤ '9')

/-- Matches exactly `n` `[a-f0-9]` characters at the head of the input,
returning the matched run and the remaining input. -/
def takeExactHex : Nat → List Char → Option (List Char × List Char)
  | 0, cs => some ([], cs)
  | _ + 1, [] => none
  | n + 1, c :: cs =>
    if isHexLower c then
      match takeExactHex n cs with
      | none => none
      | some (m, r) => some (c :: m, r)
    else none

/-- Matches a single dash at the head of the input. -/
def dashHead : List Char → Option (List Char)
  | c :: r => if c = '-' then some r else none
  | [] => none

/-- Matches dash-separated hex runs with the given lengths (one run per
list entry) at the head of the input, returning the whole matched text
and the remaining input. -/
def matchSegs : List Nat → List Char → Option (List Char × List Char)
  | [], cs => some ([], cs)
  | [n], cs => takeExactHex n cs
  | n :: n2 :: ns, cs =>
    (takeExactHex n cs).bind fun ar =>
      (dashHead ar.2).bind fun r2 =>
        (matchSegs (n2 :: ns) r2).map fun mr => (ar.1 ++ '-' :: mr.1, mr.2)

/-- The dashed 8-4-4-4-12 shape of the regex's second alternative. -/
def uuidSegs : List Nat := [8, 4, 4, 4, 12]

/-- The regex scan: at each position try the 32-hex alternative, then
the dashed alternative, and otherwise move one character right; the
first match wins. -/
def findMatch : List Char → Option (List Char)
  | [] => none
  | c :: cs =>
    match matchSegs [32] (c :: cs) with
    | some (m, _) => some m
    | none =>
      match matchSegs uuidSegs (c :: cs) with
      | some (m, _) => some m
      | none => findMatch cs

/-- Source: `extractPageIdFromUrl` — throws "Invalid Notion page URL"
when the regex does not match and otherwise returns the match with
every dash removed (the source applies a global dash-replace to the
matched text). -/
def extractPageIdFromUrl (url : String) : Except String String :=
  match findMatch url.data with
  | none => Except.error "Invalid Notion page URL"
  | some m => Except.ok (String.mk (m.filter (fun c => c ≠ '-')))

/-- Declarative reading of `matchSegs`' pattern: the text is a sequence
of all-hex runs with the given lengths, separated by single dashes. -/
def SegsShape : List Nat → List Char → Prop
  | [], m => m = []
  | [n], m => m.length = n ∧ m.all isHexLower = true
  | n :: n2 :: ns, m =>
    ∃ a m2, m = a ++ '-' :: m2 ∧ a.length = n ∧ a.all isHexLower = true ∧
      SegsShape (n2 :: ns) m2

/-- Declarative reading of the whole regex: either alternative's shape. -/
def UuidShape (m : List Char) : Prop :=
  SegsShape [32] m ∨ SegsShape uuidSegs m

/-!
Line structure of the assembled document, used to state the
one-line-per-block property: splitting on the newline character, as
JavaScript's `split` does. -/

/-- Splits a character list on every newline character; the empty list
yields one empty line, matching JavaScript's `split`. -/
def splitOnNlChars : List Char → List (List Char)
  | [] => [[]]
  | c :: cs =>
    if c = '\n' then [] :: splitOnNlChars cs
    else
      match splitOnNlChars cs with
      | [] => [[c]]
      | l :: ls => (c :: l) :: ls

/-- The lines of a document string, split on newline characters. -/
def splitLinesStr (s : String) : List String :=
  (splitOnNlChars s.data).map String.mk

/-- Character-level counterpart of `joinLines`. -/
def joinNlChars : List (List Char) → List Char
  | [] => []
  | [x] => x
  | x :: xs => x ++ '\n' :: joinNlChars xs

/-- Every type tag with its own case in the renderer's switch. -/
def dispatchTags : List String :=
  ["unsupported", "bookmark", "child_database", "child_page",
   "embed", "video", "file", "image", "pdf",
   "equation", "link_preview", "synced_block", "table", "table_of_contents",
   "breadcrumb", "column_list", "divider"]

/-- The type tags whose switch case reads a field of the payload object
(and therefore raises a TypeError when the payload is absent). -/
def derefTags : List String :=
  ["bookmark", "child_database", "child_page",
   "embed", "video", "file", "image", "pdf",
   "equation", "link_preview", "synced_block", "table", "table_of_contents"]

/-- The diagnostic body a malformed block renders to when its switch
case does not read the payload. -/
def malformedFallback (t : String) : String :=
  if t = "unsupported" then "[Unsupported block type]"
  else if t ∈ constTags then "No text available"
  else "[Needs case added]"

/-!
Concrete blocks and trees used by the witnesses and counterexamples. -/

/-- The root block of the worked depth-first example (the page queried
by the fetcher). -/
def exRoot : Block := ⟨"root", "paragraph", true, some (richTextPayload [⟨"root"⟩])⟩

/-- First child `A` of the example root; it has children. -/
def exA : Block := ⟨"a", "paragraph", true, some (richTextPayload [⟨"A"⟩])⟩

/-- First child of `A`. -/
def exA1 : Block := ⟨"a1", "paragraph", false, some (richTextPayload [⟨"A1"⟩])⟩

/-- Second child of `A`. -/
def exA2 : Block := ⟨"a2", "paragraph", false, some (richTextPayload [⟨"A2"⟩])⟩

/-- Second child `B` of the example root; it is a leaf. -/
def exB : Block := ⟨"b", "paragraph", false, some (richTextPayload [⟨"B"⟩])⟩

/-- The child forest of the example root: children `[A, B]`, where `A`
has children `[A1, A2]`. -/
def exForest : List BlockTree :=
  [BlockTree.node exA [BlockTree.node exA1 [], BlockTree.node exA2 []],
   BlockTree.node exB []]

/-- A child forest whose two direct children are leaves. -/
def exForestLeaf : List BlockTree :=
  [BlockTree.node exA1 [], BlockTree.node exA2 []]

/-- A malformed bookmark block: its `bookmark` payload field is absent. -/
def badBookmark : Block := ⟨"bk1", "bookmark", false, none⟩

/-- A paragraph block whose rich text contains an embedded newline. -/
def nlBlock : Block := ⟨"p1", "paragraph", false, some (richTextPayload [⟨"a\nb"⟩])⟩

/-- A block rendering to the 4-character line "ab: ". -/
def short4Block : Block := ⟨"s4", "ab", false, some (richTextPayload [])⟩

/-- A block rendering to the 5-character line "abc: ". -/
def exact5Block : Block := ⟨"s5", "abc", false, some (richTextPayload [])⟩

/-- An image block whose generic `url` field is present but empty, and
whose other source fields are absent. -/
def mediaUrlEmpty : Block :=
  ⟨"m1", "image", false, some (mediaPayload none none (some "") (some []))⟩

/-- An image block with an external source but no `caption` field. -/
def mediaNoCaption : Block :=
  ⟨"m2", "image", false, some (mediaPayload (some ⟨"https://x.test/i.png"⟩) none none none)⟩

/-- A bookmark block that also carries a rich-text span, exercising the
priority of the rich-text branch over the dispatch table. -/
def richBookmark : Block :=
  ⟨"rb", "bookmark", false,
   some ⟨some [⟨"Hello, "⟩, ⟨"world"⟩], some "https://x.test", none, none, none, none,
     none, none, none, none⟩⟩

/-- A paragraph block with children and one-fragment rich text. -/
def paraWithChildren : Block := ⟨"pc", "paragraph", true, some (richTextPayload [⟨"x"⟩])⟩

/-- A block of the unknown type tag used by the spec's example. -/
def fooBarBlock : Block := ⟨"fb", "foo_bar", false, some emptyPayload⟩

/-- A block the upstream store flags as unsupported. -/
def unsupportedBlock : Block := ⟨"us", "unsupported", false, some emptyPayload⟩

/-- A malformed block of an undispatched type (a toggle whose payload
field is absent). -/
def badToggle : Block := ⟨"tg", "toggle", true, none⟩

/-- A URL containing an undashed 32-character page id. -/
def exUrl : String := "https://www.notion.so/ws/Page-0123456789abcdef0123456789abcdef"

/-- Blocks for the two-line end-to-end example. -/
def exDocBlocks : List Block := [exA1, exA2]

/-- A video block with an external source and a non-empty caption. -/
def mediaExtCap : Block :=
  ⟨"m3", "video", false,
   some (mediaPayload (some ⟨"https://x.test/v.mp4"⟩) none none (some [⟨"Cap"⟩]))⟩

/-- The caption rule of `getMediaSourceText`: a non-empty caption
prefixes the source as "caption: source". -/
def captionWrap (cap : List RichTextItem) (source : String) : String :=
  if cap = [] then source else getPlainTextFromRichText cap ++ ": " ++ source

/-!
Helper lemmas shared by the claim theorems. -/

/-- Rendering a whole sequence relates blocks to lines pointwise and in
order. -/
theorem renderAll_ok_forall2 (bs : List Block) (ls : List String)
    (h : renderAll bs = Except.ok ls) :
    List.Forall₂ (fun b l => getTextFromBlock b = Except.ok l) bs ls := by
  induction bs generalizing ls with
  | nil =>
    simp only [renderAll] at h
    cases h
    exact List.Forall₂.nil
  | cons b bs ih =>
    cases hb : getTextFromBlock b with
    | error e => simp [renderAll, hb] at h
    | ok line =>
      cases hr : renderAll bs with
      | error e => simp [renderAll, hb, hr] at h
      | ok ls2 =>
        simp only [renderAll, hb, hr] at h
        cases h
        exact List.Forall₂.cons hb (ih ls2 hr)

/-- A block whose rendering throws makes the whole map throw, wherever
it sits in the sequence. -/
theorem renderAll_error_append (b : Block) (e : String)
    (hb : getTextFromBlock b = Except.error e) (pre post : List Block) :
    ∃ e2, renderAll (pre ++ b :: post) = Except.error e2 := by
  induction pre with
  | nil => exact ⟨e, by simp [renderAll, hb]⟩
  | cons a pre ih =>
    cases ha : getTextFromBlock a with
    | error e3 => exact ⟨e3, by simp [renderAll, ha]⟩
    | ok line =>
      obtain ⟨e2, h2⟩ := ih
      exact ⟨e2, by simp [renderAll, ha, h2]⟩

/-- `assemble` propagates a rendering error unchanged. -/
theorem assemble_error_of_renderAll (blocks : List Block) (e : String)
    (h : renderAll blocks = Except.error e) : assemble blocks = Except.error e := by
  simp [assemble, h]

/-- When the rich-text branch is not taken, `getTextFromBlock` is the
switch result with the marker and prefix added. -/
theorem getTextFromBlock_eq_map_dispatch (b : Block) (hrt : richTextOf b = none) :
    getTextFromBlock b =
      (dispatch b).map (fun t => b.type ++ ": " ++ withChildrenSuffix t b.has_children) := by
  simp [getTextFromBlock, bodyResult, hrt, withChildrenSuffix]

/-- Specialisation to a switch case producing a string. -/
theorem getTextFromBlock_of_dispatch (b : Block) (hrt : richTextOf b = none) (t : String)
    (hd : dispatch b = Except.ok t) :
    getTextFromBlock b = Except.ok (b.type ++ ": " ++ withChildrenSuffix t b.has_children) := by
  rw [getTextFromBlock_eq_map_dispatch b hrt, hd]
  rfl

/-- The switch falls through to the needs-case fallback on every type
tag it does not know. -/
theorem dispatch_default (b : Block) (hni : ¬ b.type ∈ dispatchTags) :
    dispatch b = Except.ok "[Needs case added]" := by
  have h : ∀ s, s ∈ dispatchTags → ¬ b.type = s := fun s hs he => hni (he ▸ hs)
  have hm : ¬ b.type ∈ mediaTags := by
    intro hmem
    apply hni
    simp only [mediaTags, List.mem_cons, List.not_mem_nil, or_false] at hmem
    simp only [dispatchTags, List.mem_cons]
    rcases hmem with h1 | h1 | h1 | h1 | h1 <;> simp [h1]
  have hc : ¬ b.type ∈ constTags := by
    intro hmem
    apply hni
    simp only [constTags, List.mem_cons, List.not_mem_nil, or_false] at hmem
    simp only [dispatchTags, List.mem_cons]
    rcases hmem with h1 | h1 | h1 <;> simp [h1]
  unfold dispatch
  rw [if_neg (h "unsupported" (by decide)), if_neg (h "bookmark" (by decide)),
    if_neg (h "child_database" (by decide)), if_neg (h "child_page" (by decide)),
    if_neg hm, if_neg (h "equation" (by decide)), if_neg (h "link_preview" (by decide)),
    if_neg (h "synced_block" (by decide)), if_neg (h "table" (by decide)),
    if_neg (h "table_of_contents" (by decide)), if_neg hc]

/-- On a type tag with no payload-dereferencing case, the switch only
reaches the two constant fallbacks. -/
theorem dispatch_not_deref (b : Block) (hnd : ¬ b.type ∈ derefTags)
    (hu : ¬ b.type = "unsupported") :
    dispatch b =
      if b.type ∈ constTags then Except.ok "No text available"
      else Except.ok "[Needs case added]" := by
  have h : ∀ s, s ∈ derefTags → ¬ b.type = s := fun s hs he => hnd (he ▸ hs)
  have hm : ¬ b.type ∈ mediaTags := by
    intro hmem
    apply hnd
    simp only [mediaTags, List.mem_cons, List.not_mem_nil, or_false] at hmem
    simp only [derefTags, List.mem_cons]
    rcases hmem with h1 | h1 | h1 | h1 | h1 <;> simp [h1]
  unfold dispatch
  rw [if_neg hu, if_neg (h "bookmark" (by decide)),
    if_neg (h "child_database" (by decide)), if_neg (h "child_page" (by decide)),
    if_neg hm, if_neg (h "equation" (by decide)), if_neg (h "link_preview" (by decide)),
    if_neg (h "synced_block" (by decide)), if_neg (h "table" (by decide)),
    if_neg (h "table_of_contents" (by decide))]

/-- A payload-dereferencing switch case throws a TypeError when the
payload is absent. -/
theorem dispatch_deref_error (b : Block) (hmal : b.payload = none)
    (hd : b.type ∈ derefTags) : ∃ e, dispatch b = Except.error e := by
  simp only [derefTags, List.mem_cons, List.not_mem_nil, or_false] at hd
  rcases hd with h | h | h | h | h | h | h | h | h | h | h | h | h
  · exact ⟨typeErrorReading "url", by simp [dispatch, h, hmal]⟩
  · exact ⟨typeErrorReading "title", by simp [dispatch, h, hmal]⟩
  · exact ⟨typeErrorReading "title", by simp [dispatch, h, hmal]⟩
  · exact ⟨typeErrorReading "external", by simp [dispatch, getMediaSourceText, h, hmal, mediaTags]⟩
  · exact ⟨typeErrorReading "external", by simp [dispatch, getMediaSourceText, h, hmal, mediaTags]⟩
  · exact ⟨typeErrorReading "external", by simp [dispatch, getMediaSourceText, h, hmal, mediaTags]⟩
  · exact ⟨typeErrorReading "external", by simp [dispatch, getMediaSourceText, h, hmal, mediaTags]⟩
  · exact ⟨typeErrorReading "external", by simp [dispatch, getMediaSourceText, h, hmal, mediaTags]⟩
  · exact ⟨typeErrorReading "expression", by simp [dispatch, h, hmal, mediaTags]⟩
  · exact ⟨typeErrorReading "url", by simp [dispatch, h, hmal, mediaTags]⟩
  · exact ⟨typeErrorReading "synced_from", by simp [dispatch, h, hmal, mediaTags]⟩
  · exact ⟨typeErrorReading "table_width", by simp [dispatch, h, hmal, mediaTags]⟩
  · exact ⟨typeErrorReading "color", by simp [dispatch, h, hmal, mediaTags]⟩

/-- The switch dispatches every media tag to `getMediaSourceText`. -/
theorem dispatch_media (b : Block) (hm : b.type ∈ mediaTags) :
    dispatch b = getMediaSourceText b := by
  simp only [mediaTags, List.mem_cons, List.not_mem_nil, or_false] at hm
  rcases hm with h | h | h | h | h <;> simp [dispatch, h, mediaTags]

/-- C3: `assemble` fails with the insufficient-content error exactly
when the newline-joined document is shorter than 5 characters, and on
failure it returns the error alone, not a partial document. -/
theorem assemble_min_length_gate (blocks : List Block) (lines : List String)
    (h : renderAll blocks = Except.ok lines) :
    ((joinLines lines).length < 5 →
       assemble blocks = Except.error (insufficientMsg (joinLines lines).length)) ∧
    (5 ≤ (joinLines lines).length → assemble blocks = Except.ok (joinLines lines)) := by
  constructor
  · intro hl
    simp [assemble, h, hl]
  · intro hl
    simp [assemble, h, Nat.not_lt.mpr hl]

/-- Witness for C3: a 4-character document is rejected, a 5-character
document is accepted. -/
theorem assemble_min_length_gate_witness :
    assemble [short4Block] = Except.error (insufficientMsg (joinLines ["ab: "]).length) ∧
    assemble [exact5Block] = Except.ok (joinLines ["abc: "]) :=
  ⟨(assemble_min_length_gate [short4Block] ["ab: "] rfl).1 (by decide),
   (assemble_min_length_gate [exact5Block] ["abc: "] rfl).2 (by decide)⟩

/-- C5: a payload carrying a rich-text span renders as the in-order
concatenation of the fragments' plain text, bypassing the type
dispatch table. -/
theorem getTextFromBlock_rich_text_priority (b : Block) (p : Payload)
    (rt : List RichTextItem) (h1 : b.payload = some p) (h2 : p.rich_text = some rt) :
    getTextFromBlock b =
      Except.ok (b.type ++ ": " ++
        withChildrenSuffix (getPlainTextFromRichText rt) b.has_children) := by
  simp only [getTextFromBlock, bodyResult, richTextOf, h1, h2, withChildrenSuffix]
  cases b.has_children <;> rfl

/-- Witness for C5: a bookmark block carrying the span
`["Hello, ", "world"]` renders "bookmark: Hello, world" even though the
bookmark dispatch case would render its URL. -/
theorem getTextFromBlock_rich_text_priority_witness :
    getTextFromBlock richBookmark = Except.ok "bookmark: Hello, world" :=
  getTextFromBlock_rich_text_priority richBookmark _ _ rfl rfl

/-- C7: a block with `has_children = true` renders a line ending in the
constant marker " (Has children)"; with `has_children = false` the line
is the bare `"<type>: <body>"` with no marker appended. -/
theorem getTextFromBlock_has_children_suffix (b : Block) :
    (b.has_children = true →
       ∀ s, getTextFromBlock b = Except.ok s → ∃ t, s = t ++ " (Has children)") ∧
    (b.has_children = false →
       getTextFromBlock b = (bodyResult b).map (fun t => b.type ++ ": " ++ t)) := by
  constructor
  · intro hc s hs
    cases hb : bodyResult b with
    | error e => simp [getTextFromBlock, hb, Except.map] at hs
    | ok t0 =>
      simp only [getTextFromBlock, hb, hc, Except.map, if_true] at hs
      cases hs
      exact ⟨b.type ++ ": " ++ t0, by simp [String.append_assoc]⟩
  · intro hc
    simp [getTextFromBlock, hc]

/-- Witness for C7: applying the marker law at a concrete block with
children and rich text "x". -/
theorem getTextFromBlock_has_children_suffix_witness :
    ∃ t, "paragraph: x (Has children)" = t ++ " (Has children)" :=
  (getTextFromBlock_has_children_suffix paraWithChildren).1 rfl
    "paragraph: x (Has children)" rfl

/-- C8: a type tag outside the dispatch table with no rich-text payload
renders the needs-case fallback rather than failing, and the tag the
store itself marks unsupported renders the unsupported marker. -/
theorem getTextFromBlock_fallbacks (b : Block) :
    (¬ b.type ∈ dispatchTags → richTextOf b = none →
       getTextFromBlock b =
         Except.ok (b.type ++ ": " ++
           withChildrenSuffix "[Needs case added]" b.has_children)) ∧
    (b.type = "unsupported" → richTextOf b = none →
       getTextFromBlock b =
         Except.ok (b.type ++ ": " ++
           withChildrenSuffix "[Unsupported block type]" b.has_children)) := by
  constructor
  · intro hni hrt
    exact getTextFromBlock_of_dispatch b hrt _ (dispatch_default b hni)
  · intro hu hrt
    refine getTextFromBlock_of_dispatch b hrt _ ?_
    unfold dispatch
    rw [if_pos hu]

/-- Witness for C8: the unknown tag "foo_bar" renders
"foo_bar: [Needs case added]" and an unsupported block renders
"unsupported: [Unsupported block type]". -/
theorem getTextFromBlock_fallbacks_witness :
    getTextFromBlock fooBarBlock = Except.ok "foo_bar: [Needs case added]" ∧
    getTextFromBlock unsupportedBlock = Except.ok "unsupported: [Unsupported block type]" :=
  ⟨(getTextFromBlock_fallbacks fooBarBlock).1 (by decide) rfl,
   (getTextFromBlock_fallbacks unsupportedBlock).2 rfl rfl⟩

/-- C2 (amended): a malformed block (absent payload) renders a visible
diagnostic line when its type's switch case does not read the payload,
but when the case does read the payload (bookmark, child_database,
child_page, the media types, equation, link_preview, synced_block,
table, table_of_contents) the TypeError aborts the whole assemble
pipeline, wherever the block sits in the sequence. -/
theorem malformed_block_behaviour (b : Block) (hmal : b.payload = none) :
    (¬ b.type ∈ derefTags →
       getTextFromBlock b =
         Except.ok (b.type ++ ": " ++
           withChildrenSuffix (malformedFallback b.type) b.has_children)) ∧
    (b.type ∈ derefTags →
       ∀ pre post, ∃ e, assemble (pre ++ b :: post) = Except.error e) := by
  have hrt : richTextOf b = none := by simp [richTextOf, hmal]
  constructor
  · intro hnd
    refine getTextFromBlock_of_dispatch b hrt _ ?_
    by_cases hu : b.type = "unsupported"
    · unfold dispatch
      rw [if_pos hu]
      simp [malformedFallback, hu]
    · rw [dispatch_not_deref b hnd hu]
      by_cases hct : b.type ∈ constTags
      · rw [if_pos hct]
        simp [malformedFallback, hu, hct]
      · rw [if_neg hct]
        simp [malformedFallback, hu, hct]
  · intro hd pre post
    obtain ⟨e, he⟩ := dispatch_deref_error b hmal hd
    have hb : getTextFromBlock b = Except.error e := by
      rw [getTextFromBlock_eq_map_dispatch b hrt, he]
      rfl
    obtain ⟨e2, h2⟩ := renderAll_error_append b e hb pre post
    exact ⟨e2, assemble_error_of_renderAll _ e2 h2⟩

/-- Counterexample for C2: a malformed bookmark block does not degrade
to a diagnostic line — the whole pipeline aborts with a TypeError and
no Document is produced. -/
theorem malformed_block_cex :
    assemble [badBookmark] = Except.error (typeErrorReading "url") := rfl

/-- Witness for C2 (amended): a malformed toggle block degrades to the
diagnostic line "toggle: [Needs case added] (Has children)". -/
theorem malformed_block_behaviour_witness :
    getTextFromBlock badToggle =
      Except.ok ("toggle" ++ ": " ++ withChildrenSuffix (malformedFallback "toggle") true) :=
  (malformed_block_behaviour badToggle rfl).1 (by decide)

/-- The deep fetch emits at least one record per tree of the forest. -/
theorem length_le_retrieveBlockChildren (ts : List BlockTree) :
    ts.length ≤ (retrieveBlockChildren ts).length := by
  induction ts with
  | nil => simp [retrieveBlockChildren]
  | cons t ts ih =>
    cases t with
    | node blk cs =>
      simp only [retrieveBlockChildren, List.length_cons, List.length_append]
      omega

/-- The shallow fetch is an order-preserving subsequence of the deep
fetch. -/
theorem shallow_sublist_deep (ts : List BlockTree) :
    (retrieveBlockChildrenShallow ts).Sublist (retrieveBlockChildren ts) := by
  induction ts with
  | nil => simp [retrieveBlockChildrenShallow, retrieveBlockChildren]
  | cons t ts ih =>
    cases t with
    | node blk cs =>
      have ih2 : (List.map BlockTree.blk ts).Sublist (retrieveBlockChildren ts) := by
        simpa [retrieveBlockChildrenShallow] using ih
      simp only [retrieveBlockChildrenShallow, List.map_cons, retrieveBlockChildren,
        BlockTree.blk]
      exact List.Sublist.cons₂ _ (ih2.trans (List.sublist_append_right _ _))

/-- When no direct child reports children, the deep fetch equals the
shallow fetch. -/
theorem deep_eq_shallow_of_leaves (ts : List BlockTree)
    (h : ∀ t ∈ ts, (BlockTree.blk t).has_children = false) :
    retrieveBlockChildren ts = retrieveBlockChildrenShallow ts := by
  induction ts with
  | nil => simp [retrieveBlockChildrenShallow, retrieveBlockChildren]
  | cons t ts ih =>
    cases t with
    | node blk cs =>
      have hb := h _ (List.mem_cons_self _ _)
      simp only [BlockTree.blk] at hb
      have ht := ih (fun t ht => h t (List.mem_cons_of_mem _ ht))
      simp [retrieveBlockChildren, retrieveBlockChildrenShallow, hb, BlockTree.blk, ht]

/-- When some direct child reports children and really has some, the
deep fetch is strictly longer than the shallow fetch. -/
theorem deep_longer (ts : List BlockTree)
    (h : ∃ t ∈ ts, (BlockTree.blk t).has_children = true ∧ BlockTree.children t ≠ []) :
    (retrieveBlockChildrenShallow ts).length < (retrieveBlockChildren ts).length := by
  induction ts with
  | nil => simp at h
  | cons t ts ih =>
    cases t with
    | node blk cs =>
      rcases h with ⟨u, hu, h1, h2⟩
      have hlts : (retrieveBlockChildrenShallow ts).length = ts.length := by
        simp [retrieveBlockChildrenShallow]
      rcases List.mem_cons.mp hu with rfl | hmem
      · simp only [BlockTree.blk] at h1
        simp only [BlockTree.children] at h2
        have hcs : 1 ≤ cs.length := by
          cases cs
          · exact absurd rfl h2
          · simp
        have hlc := length_le_retrieveBlockChildren cs
        have hlt := length_le_retrieveBlockChildren ts
        simp only [retrieveBlockChildrenShallow, List.map_cons, List.length_cons,
          retrieveBlockChildren, h1, if_true, List.length_append, List.length_map]
        omega
      · have hd := ih ⟨u, hmem, h1, h2⟩
        simp only [retrieveBlockChildrenShallow, List.length_map] at hd
        simp only [retrieveBlockChildrenShallow, List.map_cons, List.length_cons,
          retrieveBlockChildren, List.length_append, List.length_map]
        omega

/-- C1 (amended): for a block with `has_children = true` the recursively
fetched descendants are spliced immediately after it and before its
following siblings, and for a root with children `[A, B]` where `A` has
children `[A1, A2]` the fetched sequence is `[A, A1, A2, B]` — the
queried root itself is not part of the output. -/
theorem retrieveBlockChildren_depth_first (blk : Block) (cs ts : List BlockTree)
    (h : blk.has_children = true) :
    retrieveBlockChildren (BlockTree.node blk cs :: ts) =
      blk :: (retrieveBlockChildren cs ++ retrieveBlockChildren ts) ∧
    retrieveBlockChildren exForest = [exA, exA1, exA2, exB] := by
  constructor
  · simp [retrieveBlockChildren, h]
  · simp [retrieveBlockChildren, exForest, exA, exA1, exA2, exB]

/-- Counterexample for C1: the fetched sequence for the example root is
not `[root, A, A1, A2, B]` — the root record is absent from the output. -/
theorem retrieveBlockChildren_depth_first_cex :
    retrieveBlockChildren exForest ≠ [exRoot, exA, exA1, exA2, exB] := by
  have hv : retrieveBlockChildren exForest = [exA, exA1, exA2, exB] := by
    simp [retrieveBlockChildren, exForest, exA, exA1, exA2, exB]
  rw [hv]
  decide

/-- Witness for C1 (amended): the worked example evaluates to
`[A, A1, A2, B]`. -/
theorem retrieveBlockChildren_depth_first_witness :
    retrieveBlockChildren exForest = [exA, exA1, exA2, exB] :=
  (retrieveBlockChildren_depth_first exA [] [] rfl).2

/-- C9: the shallow fetch variant returns exactly the direct children
of the root; it is an order-preserving subsequence of the deep variant;
the two agree when no direct child reports children; and the deep
output is strictly longer when some direct child really has children. -/
theorem deep_vs_shallow (forest : List BlockTree) :
    retrieveBlockChildrenShallow forest = forest.map BlockTree.blk ∧
    (retrieveBlockChildrenShallow forest).Sublist (retrieveBlockChildren forest) ∧
    ((∀ t ∈ forest, (BlockTree.blk t).has_children = false) →
       retrieveBlockChildren forest = retrieveBlockChildrenShallow forest) ∧
    ((∃ t ∈ forest, (BlockTree.blk t).has_children = true ∧ BlockTree.children t ≠ []) →
       (retrieveBlockChildrenShallow forest).length < (retrieveBlockChildren forest).length) :=
  ⟨rfl, shallow_sublist_deep forest, deep_eq_shallow_of_leaves forest, deep_longer forest⟩

/-- Witness for C9: the deep and shallow fetches agree on a forest of
leaves, and the deep fetch is strictly longer on the worked example. -/
theorem deep_vs_shallow_witness :
    retrieveBlockChildren exForestLeaf = retrieveBlockChildrenShallow exForestLeaf ∧
    (retrieveBlockChildrenShallow exForest).length < (retrieveBlockChildren exForest).length :=
  ⟨(deep_vs_shallow exForestLeaf).2.2.1 (by decide),
   (deep_vs_shallow exForest).2.2.2
     ⟨BlockTree.node exA [BlockTree.node exA1 [], BlockTree.node exA2 []],
      List.mem_cons_self _ _, rfl, by simp [BlockTree.children]⟩⟩

/-- Splitting never produces an empty list of lines. -/
theorem splitOnNlChars_ne_nil (l : List Char) : splitOnNlChars l ≠ [] := by
  cases l with
  | nil => simp [splitOnNlChars]
  | cons c cs =>
    simp only [splitOnNlChars]
    split
    · simp
    · split <;> simp

/-- A newline-free text is a single line. -/
theorem splitOnNlChars_no_nl (l : List Char) (h : ¬ '\n' ∈ l) :
    splitOnNlChars l = [l] := by
  induction l with
  | nil => rfl
  | cons c cs ih =>
    have hc : ¬ c = '\n' := fun he => h (he ▸ List.mem_cons_self c cs)
    have hcs : ¬ '\n' ∈ cs := fun hm => h (List.mem_cons_of_mem _ hm)
    simp [splitOnNlChars, hc, ih hcs]

/-- Splitting peels off a leading newline-free segment at its newline. -/
theorem splitOnNlChars_append_nl (x r : List Char) (h : ¬ '\n' ∈ x) :
    splitOnNlChars (x ++ '\n' :: r) = x :: splitOnNlChars r := by
  induction x with
  | nil => simp [splitOnNlChars]
  | cons c cs ih =>
    have hc : ¬ c = '\n' := fun he => h (he ▸ List.mem_cons_self c cs)
    have hcs : ¬ '\n' ∈ cs := fun hm => h (List.mem_cons_of_mem _ hm)
    simp [splitOnNlChars, hc, ih hcs]

/-- `joinLines` at the character level. -/
theorem joinLines_data (ls : List String) :
    (joinLines ls).data = joinNlChars (ls.map String.data) := by
  induction ls with
  | nil => rfl
  | cons s ss ih =>
    cases ss with
    | nil => rfl
    | cons s2 ss2 =>
      simp only [joinLines, joinNlChars, List.map_cons, String.data_append, ih]
      simp [List.append_assoc]

/-- Splitting inverts joining for a non-empty family of newline-free
lines. -/
theorem splitOnNlChars_joinNlChars (xs : List (List Char)) (hne : xs ≠ [])
    (h : ∀ x ∈ xs, ¬ '\n' ∈ x) : splitOnNlChars (joinNlChars xs) = xs := by
  induction xs with
  | nil => exact absurd rfl hne
  | cons x xs ih =>
    cases xs with
    | nil => exact splitOnNlChars_no_nl x (h x (List.mem_cons_self _ _))
    | cons y ys =>
      have hx := h x (List.mem_cons_self _ _)
      rw [show joinNlChars (x :: y :: ys) = x ++ '\n' :: joinNlChars (y :: ys) from rfl]
      rw [splitOnNlChars_append_nl x _ hx,
        ih (by simp) (fun z hz => h z (List.mem_cons_of_mem _ hz))]

/-- String-level split/join inversion. -/
theorem splitLinesStr_joinLines (ls : List String) (hne : ls ≠ [])
    (h : ∀ l ∈ ls, ¬ '\n' ∈ l.data) : splitLinesStr (joinLines ls) = ls := by
  unfold splitLinesStr
  rw [joinLines_data,
    splitOnNlChars_joinNlChars (ls.map String.data) (by simpa using hne)
      (by
        intro x hx
        rcases List.mem_map.mp hx with ⟨l, hl, rfl⟩
        exact h l hl),
    List.map_map]
  have hid : (String.mk ∘ String.data) = id := funext fun s => rfl
  rw [hid, List.map_id]

/-- C4 (amended): when every block renders and no rendered line
contains a newline character, the Document produced by `assemble`
splits into exactly one line per input block, the i-th line being the
rendering of the i-th block. -/
theorem assemble_line_structure (blocks : List Block) (lines : List String) (d : String)
    (hr : renderAll blocks = Except.ok lines)
    (hd : assemble blocks = Except.ok d)
    (hnl : ∀ l ∈ lines, ¬ '\n' ∈ l.data) :
    splitLinesStr d = lines ∧
    lines.length = blocks.length ∧
    List.Forall₂ (fun b l => getTextFromBlock b = Except.ok l) blocks lines := by
  have hif : (if (joinLines lines).length < 5
      then Except.error (insufficientMsg (joinLines lines).length)
      else (Except.ok (joinLines lines) : Except String String)) = Except.ok d := by
    rw [← hd]
    simp [assemble, hr]
  have hjoin : d = joinLines lines := by
    by_cases hlt : (joinLines lines).length < 5
    · rw [if_pos hlt] at hif
      cases hif
    · rw [if_neg hlt] at hif
      cases hif
      rfl
  have hf2 := renderAll_ok_forall2 blocks lines hr
  have hne : lines ≠ [] := by
    intro he
    subst he
    rw [if_pos (by decide)] at hif
    cases hif
  subst hjoin
  exact ⟨splitLinesStr_joinLines lines hne hnl, hf2.length_eq.symm, hf2⟩

/-- Counterexample for C4: a single block whose rich text embeds a
newline produces a Document of two lines. -/
theorem assemble_line_structure_cex :
    assemble [nlBlock] = Except.ok "paragraph: a\nb" ∧
    (splitLinesStr "paragraph: a\nb").length = 2 ∧
    ([nlBlock] : List Block).length = 1 := ⟨rfl, rfl, rfl⟩

/-- Witness for C4 (amended): the two-block example splits back into
its two rendered lines. -/
theorem assemble_line_structure_witness :
    splitLinesStr "paragraph: A1\nparagraph: A2" = ["paragraph: A1", "paragraph: A2"] ∧
    (["paragraph: A1", "paragraph: A2"] : List String).length = exDocBlocks.length ∧
    List.Forall₂ (fun b l => getTextFromBlock b = Except.ok l) exDocBlocks
      ["paragraph: A1", "paragraph: A2"] :=
  assemble_line_structure exDocBlocks ["paragraph: A1", "paragraph: A2"]
    "paragraph: A1\nparagraph: A2" rfl rfl (by decide)

/-- C6 (amended): for a media block whose payload and caption field are
present and which carries no rich text, the source is the external URL
if present, else the hosted-file URL, else the generic URL when it is
present and non-empty, else the missing-case diagnostic naming the
type; a non-empty caption prefixes the source; and every media type tag
routes through this rule. -/
theorem getMediaSourceText_rule (b : Block) (p : Payload) (cap : List RichTextItem)
    (h1 : b.payload = some p) (h2 : p.caption = some cap) (h3 : p.rich_text = none) :
    (∀ f, p.external = some f →
       getMediaSourceText b = Except.ok (captionWrap cap f.url)) ∧
    (p.external = none → ∀ f, p.file = some f →
       getMediaSourceText b = Except.ok (captionWrap cap f.url)) ∧
    (p.external = none → p.file = none → ∀ u, p.url = some u → ¬ u = "" →
       getMediaSourceText b = Except.ok (captionWrap cap u)) ∧
    (p.external = none → p.file = none → (p.url = none ∨ p.url = some "") →
       getMediaSourceText b =
         Except.ok (captionWrap cap ("[Missing case for media block types]: " ++ b.type))) ∧
    (b.type ∈ mediaTags →
       getTextFromBlock b = (getMediaSourceText b).map
         (fun t => b.type ++ ": " ++ withChildrenSuffix t b.has_children)) := by
  have hcap : ∀ source : String,
      (if cap.length ≠ 0 then Except.ok (getPlainTextFromRichText cap ++ ": " ++ source)
       else (Except.ok source : Except String String)) = Except.ok (captionWrap cap source) := by
    intro source
    cases cap with
    | nil => simp [captionWrap]
    | cons c cs => simp [captionWrap]
  refine ⟨?_, ?_, ?_, ?_, ?_⟩
  · intro f hf
    simp only [getMediaSourceText, h1, h2, hf]
    exact hcap f.url
  · intro hext f hf
    simp only [getMediaSourceText, h1, h2, hext, hf]
    exact hcap f.url
  · intro hext hfil u hu hne
    simp only [getMediaSourceText, h1, h2, hext, hfil, hu, ne_eq, hne, not_false_iff,
      if_true]
    exact hcap u
  · intro hext hfil hu
    rcases hu with hu | hu
    · simp only [getMediaSourceText, h1, h2, hext, hfil, hu]
      exact hcap _
    · simp only [getMediaSourceText, h1, h2, hext, hfil, hu, ne_eq, not_true, if_false]
      exact hcap _
  · intro hm
    have hrt : richTextOf b = none := by simp [richTextOf, h1, h3]
    rw [getTextFromBlock_eq_map_dispatch b hrt, dispatch_media b hm]

/-- Counterexample for C6: a generic `url` field that is present but
empty is skipped (JavaScript truthiness), yielding the diagnostic
instead of the empty URL; and an absent caption field makes the media
rule throw instead of rendering an unprefixed source. -/
theorem getMediaSourceText_rule_cex :
    getMediaSourceText mediaUrlEmpty =
      Except.ok "[Missing case for media block types]: image" ∧
    getMediaSourceText mediaNoCaption = Except.error (typeErrorReading "length") :=
  ⟨rfl, rfl⟩

/-- Witness for C6 (amended): a video block with an external source and
caption "Cap" renders the caption-prefixed external URL. -/
theorem getMediaSourceText_rule_witness :
    getMediaSourceText mediaExtCap =
      Except.ok (captionWrap [⟨"Cap"⟩] "https://x.test/v.mp4") :=
  (getMediaSourceText_rule mediaExtCap _ _ rfl rfl rfl).1 ⟨"https://x.test/v.mp4"⟩ rfl

/-- A hex character is never a dash. -/
theorem isHexLower_ne_dash (c : Char) (h : isHexLower c = true) : ¬ c = '-' := by
  intro he
  rw [he] at h
  rw [show isHexLower '-' = false from by decide] at h
  cases h

/-- Soundness of the hex-run matcher. -/
theorem takeExactHex_sound (n : Nat) (cs m r : List Char)
    (h : takeExactHex n cs = some (m, r)) :
    cs = m ++ r ∧ m.length = n ∧ m.all isHexLower = true := by
  induction n generalizing cs m r with
  | zero =>
    simp only [takeExactHex] at h
    cases h
    exact ⟨rfl, rfl, rfl⟩
  | succ n ih =>
    cases cs with
    | nil => simp [takeExactHex] at h
    | cons c cs =>
      simp only [takeExactHex] at h
      by_cases hc : isHexLower c
      · rw [if_pos hc] at h
        cases ht : takeExactHex n cs with
        | none => rw [ht] at h; cases h
        | some pr =>
          obtain ⟨m2, r2⟩ := pr
          rw [ht] at h
          simp only [Option.some.injEq, Prod.mk.injEq] at h
          obtain ⟨h1, h2⟩ := h
          obtain ⟨e1, e2, e3⟩ := ih cs m2 r2 ht
          subst h2
          rw [← h1, e1]
          refine ⟨rfl, by simp [e2], ?_⟩
          simp [List.all_cons, hc, e3]
      · rw [if_neg hc] at h; cases h

/-- Completeness of the hex-run matcher. -/
theorem takeExactHex_complete (m r : List Char) (hhex : m.all isHexLower = true) :
    takeExactHex m.length (m ++ r) = some (m, r) := by
  induction m with
  | nil => rfl
  | cons c cs ih =>
    simp only [List.all_cons, Bool.and_eq_true] at hhex
    obtain ⟨h1, h2⟩ := hhex
    simp [takeExactHex, h1, ih h2]

/-- `dashHead` succeeds exactly on a leading dash. -/
theorem dashHead_eq_some (r r2 : List Char) : dashHead r = some r2 ↔ r = '-' :: r2 := by
  cases r with
  | nil => simp [dashHead]
  | cons c cs =>
    by_cases hc : c = '-'
    · subst hc
      simp [dashHead]
    · simp [dashHead, hc]

/-- Soundness of the segment matcher against its declarative shape. -/
theorem matchSegs_sound (segs : List Nat) (cs m r : List Char)
    (h : matchSegs segs cs = some (m, r)) : cs = m ++ r ∧ SegsShape segs m := by
  induction segs generalizing cs m r with
  | nil =>
    simp only [matchSegs] at h
    cases h
    exact ⟨rfl, rfl⟩
  | cons n rest ih =>
    cases rest with
    | nil =>
      simp only [matchSegs] at h
      obtain ⟨e1, e2, e3⟩ := takeExactHex_sound n cs m r h
      exact ⟨e1, e2, e3⟩
    | cons n2 ns =>
      simp only [matchSegs, Option.bind_eq_some, Option.map_eq_some'] at h
      obtain ⟨⟨a, r1⟩, ht, r2, hd, ⟨m2, rest2⟩, hm, hpair⟩ := h
      have h1 : a ++ '-' :: m2 = m := congrArg Prod.fst hpair
      have h2 : rest2 = r := congrArg Prod.snd hpair
      subst h1
      subst h2
      obtain ⟨e1, e2, e3⟩ := takeExactHex_sound n cs a r1 ht
      have hr1 : r1 = '-' :: r2 := (dashHead_eq_some r1 r2).mp hd
      subst hr1
      obtain ⟨f1, f2⟩ := ih r2 m2 rest2 hm
      constructor
      · rw [e1, f1]
        simp [List.append_assoc]
      · exact ⟨a, m2, rfl, e2, e3, f2⟩

/-- Completeness of the segment matcher. -/
theorem matchSegs_complete (segs : List Nat) (m r : List Char) (h : SegsShape segs m) :
    matchSegs segs (m ++ r) = some (m, r) := by
  induction segs generalizing m r with
  | nil =>
    have hm : m = [] := h
    subst hm
    simp [matchSegs]
  | cons n rest ih =>
    cases rest with
    | nil =>
      have h2 : m.length = n ∧ m.all isHexLower = true := h
      obtain ⟨h1, h2⟩ := h2
      subst h1
      rw [show matchSegs [m.length] (m ++ r) = takeExactHex m.length (m ++ r) from by
        simp [matchSegs]]
      exact takeExactHex_complete m r h2
    | cons n2 ns =>
      have h2 : ∃ a m2, m = a ++ '-' :: m2 ∧ a.length = n ∧ a.all isHexLower = true ∧
          SegsShape (n2 :: ns) m2 := h
      obtain ⟨a, m2, hm, hlen, hhex, hshape⟩ := h2
      subst hm
      subst hlen
      have t1 := takeExactHex_complete a ('-' :: (m2 ++ r)) hhex
      have heq : (a ++ '-' :: m2) ++ r = a ++ '-' :: (m2 ++ r) := by simp
      simp only [matchSegs]
      rw [heq, t1]
      simp [dashHead, ih m2 r hshape]

/-- Scan step: the 32-hex alternative matches at the current position. -/
theorem findMatch_cons_some1 (c : Char) (cs m r : List Char)
    (h1 : matchSegs [32] (c :: cs) = some (m, r)) : findMatch (c :: cs) = some m := by
  simp [findMatch, h1]

/-- Scan step: only the dashed alternative matches at the current
position. -/
theorem findMatch_cons_some2 (c : Char) (cs m r : List Char)
    (h1 : matchSegs [32] (c :: cs) = none)
    (h2 : matchSegs uuidSegs (c :: cs) = some (m, r)) :
    findMatch (c :: cs) = some m := by
  simp [findMatch, h1, h2]

/-- Scan step: neither alternative matches at the current position. -/
theorem findMatch_cons_none (c : Char) (cs : List Char)
    (h1 : matchSegs [32] (c :: cs) = none) (h2 : matchSegs uuidSegs (c :: cs) = none) :
    findMatch (c :: cs) = findMatch cs := by
  simp [findMatch, h1, h2]

/-- When the scan fails, no position of the input carries either shape. -/
theorem findMatch_none_sound (cs : List Char) (h : findMatch cs = none) :
    ∀ pre mid post, cs = pre ++ mid ++ post → ¬ UuidShape mid := by
  induction cs with
  | nil =>
    intro pre mid post heq hshape
    have hlen := congrArg List.length heq
    simp only [List.length_nil, List.length_append] at hlen
    have hmid : mid = [] := List.eq_nil_of_length_eq_zero (by omega)
    subst hmid
    rcases hshape with h1 | h1
    · have h2 : ([] : List Char).length = 32 ∧ ([] : List Char).all isHexLower = true := h1
      simp at h2
    · have h2 : ∃ a m2, ([] : List Char) = a ++ '-' :: m2 ∧ a.length = 8 ∧
          a.all isHexLower = true ∧ SegsShape [4, 4, 4, 12] m2 := h1
      obtain ⟨a, m2, hm, -⟩ := h2
      exact absurd hm (by simp)
  | cons c cs ih =>
    intro pre mid post heq hshape
    cases h1 : matchSegs [32] (c :: cs) with
    | some pr =>
      obtain ⟨m1, r1⟩ := pr
      rw [findMatch_cons_some1 c cs m1 r1 h1] at h
      cases h
    | none =>
      cases h2 : matchSegs uuidSegs (c :: cs) with
      | some pr =>
        obtain ⟨m1, r1⟩ := pr
        rw [findMatch_cons_some2 c cs m1 r1 h1 h2] at h
        cases h
      | none =>
        rw [findMatch_cons_none c cs h1 h2] at h
        cases pre with
        | nil =>
          have heq2 : c :: cs = mid ++ post := by simpa using heq
          rcases hshape with hs | hs
          · have hcomp := matchSegs_complete [32] mid post hs
            rw [← heq2, h1] at hcomp
            cases hcomp
          · have hcomp := matchSegs_complete uuidSegs mid post hs
            rw [← heq2, h2] at hcomp
            cases hcomp
        | cons c2 pre2 =>
          have heq2 : c = c2 ∧ cs = pre2 ++ mid ++ post := by simpa using heq
          exact ih h pre2 mid post heq2.2 hshape

/-- When the scan succeeds, the match sits at the leftmost matching
position and carries one of the two shapes. -/
theorem findMatch_some_sound (cs m : List Char) (h : findMatch cs = some m) :
    ∃ pre post, cs = pre ++ m ++ post ∧ UuidShape m ∧
      ∀ pre2 mid2 post2, cs = pre2 ++ mid2 ++ post2 → UuidShape mid2 →
        pre.length ≤ pre2.length := by
  induction cs generalizing m with
  | nil => simp [findMatch] at h
  | cons c cs ih =>
    cases h1 : matchSegs [32] (c :: cs) with
    | some pr =>
      obtain ⟨m1, r1⟩ := pr
      rw [findMatch_cons_some1 c cs m1 r1 h1] at h
      simp only [Option.some.injEq] at h
      subst h
      obtain ⟨heq, hs⟩ := matchSegs_sound [32] (c :: cs) m1 r1 h1
      exact ⟨[], r1, by simpa using heq, Or.inl hs, fun _ _ _ _ _ => Nat.zero_le _⟩
    | none =>
      cases h2 : matchSegs uuidSegs (c :: cs) with
      | some pr =>
        obtain ⟨m1, r1⟩ := pr
        rw [findMatch_cons_some2 c cs m1 r1 h1 h2] at h
        simp only [Option.some.injEq] at h
        subst h
        obtain ⟨heq, hs⟩ := matchSegs_sound uuidSegs (c :: cs) m1 r1 h2
        exact ⟨[], r1, by simpa using heq, Or.inr hs, fun _ _ _ _ _ => Nat.zero_le _⟩
      | none =>
        rw [findMatch_cons_none c cs h1 h2] at h
        obtain ⟨pre, post, heq, hshape, hmin⟩ := ih m h
        refine ⟨c :: pre, post, by simp [heq], hshape, ?_⟩
        intro pre2 mid2 post2 heq2 hs2
        cases pre2 with
        | nil =>
          exfalso
          have heq3 : c :: cs = mid2 ++ post2 := by simpa using heq2
          rcases hs2 with hs2 | hs2
          · have hcomp := matchSegs_complete [32] mid2 post2 hs2
            rw [← heq3, h1] at hcomp
            cases hcomp
          · have hcomp := matchSegs_complete uuidSegs mid2 post2 hs2
            rw [← heq3, h2] at hcomp
            cases hcomp
        | cons c2 pre3 =>
          have heq3 : c = c2 ∧ cs = pre3 ++ mid2 ++ post2 := by simpa using heq2
          simp only [List.length_cons]
          exact Nat.succ_le_succ (hmin pre3 mid2 post2 heq3.2 hs2)

/-- Stripping dashes from a shaped match leaves its hex runs: the
result length is the sum of the run lengths and every character is
lowercase hex. -/
theorem segsShape_filter (segs : List Nat) (m : List Char) (h : SegsShape segs m) :
    (m.filter (fun c => c ≠ '-')).length = segs.sum ∧
    (m.filter (fun c => c ≠ '-')).all isHexLower = true := by
  induction segs generalizing m with
  | nil =>
    have hm : m = [] := h
    subst hm
    exact ⟨rfl, rfl⟩
  | cons n rest ih =>
    cases rest with
    | nil =>
      have h2 : m.length = n ∧ m.all isHexLower = true := h
      obtain ⟨h1, h2⟩ := h2
      have hfix : m.filter (fun c => c ≠ '-') = m := by
        apply List.filter_eq_self.mpr
        intro c hc
        have hhex : isHexLower c = true := by
          have := List.all_eq_true.mp h2 c hc
          simpa using this
        simpa using isHexLower_ne_dash c hhex
      rw [hfix]
      exact ⟨by simp [h1], h2⟩
    | cons n2 ns =>
      have h2 : ∃ a m2, m = a ++ '-' :: m2 ∧ a.length = n ∧ a.all isHexLower = true ∧
          SegsShape (n2 :: ns) m2 := h
      obtain ⟨a, m2, hm, hlen, hhex, hshape⟩ := h2
      subst hm
      obtain ⟨ih1, ih2⟩ := ih m2 hshape
      have hfa : a.filter (fun c => c ≠ '-') = a := by
        apply List.filter_eq_self.mpr
        intro c hc
        have hh : isHexLower c = true := by
          have := List.all_eq_true.mp hhex c hc
          simpa using this
        simpa using isHexLower_ne_dash c hh
      have hsplit : (a ++ '-' :: m2).filter (fun c => c ≠ '-') =
          a ++ m2.filter (fun c => c ≠ '-') := by
        rw [List.filter_append, hfa, List.filter_cons]
        simp
      rw [hsplit]
      constructor
      · rw [List.length_append, ih1, hlen]
        simp
      · simp only [List.all_append, Bool.and_eq_true]
        exact ⟨hhex, ih2⟩

/-- C10: `extractPageIdFromUrl` throws "Invalid Notion page URL"
exactly when the URL contains neither a 32-character lowercase-hex
substring nor a dashed 8-4-4-4-12 lowercase-hex substring; otherwise it
returns the first (leftmost) such match with all dashes removed, which
is a string of exactly 32 lowercase-hex characters. -/
theorem extractPageIdFromUrl_spec (url : String) :
    (extractPageIdFromUrl url = Except.error "Invalid Notion page URL" ↔
       ¬ ∃ pre mid post, url.data = pre ++ mid ++ post ∧ UuidShape mid) ∧
    (∀ s, extractPageIdFromUrl url = Except.ok s →
       ∃ pre mid post, url.data = pre ++ mid ++ post ∧ UuidShape mid ∧
         s.data = mid.filter (fun c => c ≠ '-') ∧
         (∀ pre2 mid2 post2, url.data = pre2 ++ mid2 ++ post2 → UuidShape mid2 →
            pre.length ≤ pre2.length) ∧
         s.data.length = 32 ∧ s.data.all isHexLower = true) := by
  constructor
  · constructor
    · intro herr
      cases hf : findMatch url.data with
      | none =>
        rintro ⟨pre, mid, post, heq, hshape⟩
        exact findMatch_none_sound _ hf pre mid post heq hshape
      | some m => simp [extractPageIdFromUrl, hf] at herr
    · intro hnex
      cases hf : findMatch url.data with
      | none => simp [extractPageIdFromUrl, hf]
      | some m =>
        exfalso
        obtain ⟨pre, post, heq, hshape, -⟩ := findMatch_some_sound _ m hf
        exact hnex ⟨pre, m, post, heq, hshape⟩
  · intro s hs
    cases hf : findMatch url.data with
    | none => simp [extractPageIdFromUrl, hf] at hs
    | some m =>
      simp only [extractPageIdFromUrl, hf, Except.ok.injEq] at hs
      subst hs
      obtain ⟨pre, post, heq, hshape, hmin⟩ := findMatch_some_sound _ m hf
      have hsum : ∀ hsh : UuidShape m,
          (m.filter (fun c => c ≠ '-')).length = 32 ∧
          (m.filter (fun c => c ≠ '-')).all isHexLower = true := by
        intro hsh
        rcases hsh with hsh | hsh
        · obtain ⟨l, a⟩ := segsShape_filter [32] m hsh
          exact ⟨by simpa using l, a⟩
        · obtain ⟨l, a⟩ := segsShape_filter uuidSegs m hsh
          refine ⟨?_, a⟩
          rw [l]
          rfl
      obtain ⟨hl, ha⟩ := hsum hshape
      exact ⟨pre, m, post, heq, hshape, rfl, hmin, hl, ha⟩

/-- Witness for C10: the example URL yields the 32-hex page id, located
at the leftmost matching position. -/
theorem extractPageIdFromUrl_spec_witness :
    ∃ pre mid post, exUrl.data = pre ++ mid ++ post ∧ UuidShape mid ∧
      ("0123456789abcdef0123456789abcdef" : String).data =
        mid.filter (fun c => c ≠ '-') ∧
      (∀ pre2 mid2 post2, exUrl.data = pre2 ++ mid2 ++ post2 → UuidShape mid2 →
         pre.length ≤ pre2.length) ∧
      ("0123456789abcdef0123456789abcdef" : String).data.length = 32 ∧
      ("0123456789abcdef0123456789abcdef" : String).data.all isHexLower = true :=
  (extractPageIdFromUrl_spec exUrl).2 "0123456789abcdef0123456789abcdef" rfl

end NotionSpec
